import Mathlib

/-!
Verification of the agentic sampling loop and message-translation layer of
`computer_use_demo/loop.py` (Nebius computer-use demo).

Shallow embedding notes:
* Python dict "messages" are modelled by the `Msg` structure; every field a
  message dict may carry in this code base is an explicit (optional) field.
* JSON tool-call payloads are opaque to every property considered here, so a
  tool call's `input` object and its `json.dumps`/`json.loads` wire form are
  modelled by one opaque `String` (dumps and loads are the identity on it).
* Machine-level exceptions that the source does not catch (the `IndexError`
  raised by `content[-1]` on an empty list) are modelled with `Option` /
  dedicated `crash` results.
* The backend network call is modelled by a script (`List ApiOutcome`) of
  responses consumed one per loop iteration; callbacks are modelled as a pure
  event trace (`LoopEvent`).
-/

/-- An item inside a `tool_result` block's content list
(`{"type": "text", ...}`, `{"type": "image", ...}`, or any other dict,
which the source code ignores). -/
inductive TRItem where
  | text (s : String)
  | image (mediaType dataStr : String)
  | otherTR (tag : String)
deriving DecidableEq

/-- A `tool_result` block's `"content"` value: either a plain string or a
list of content items. -/
inductive TRContent where
  | str (s : String)
  | items (l : List TRItem)
deriving DecidableEq

/-- A content block of an Anthropic-style message, or a content part of an
OpenAI-style wire message (the source keeps both as plain dicts in the same
lists).  `imageUrl` is the OpenAI `{"type": "image_url", ...}` part;
`otherBlock` stands for any dict with an unrecognised `"type"`. -/
inductive Block where
  | text (s : String)
  | image (mediaType dataStr : String)
  | toolUse (id nm input : String)
  | toolResult (toolUseId : String) (content : TRContent) (isError : Bool)
  | imageUrl (url : String)
  | otherBlock (tag : String)
deriving DecidableEq

/-- A top-level content item of a message: a block plus the presence of the
`"cache_control"` key (the prompt-cache breakpoint marker). -/
structure Item where
  block : Block
  cacheControl : Bool
deriving DecidableEq

/-- A message's `"content"` value: plain string or list of items. -/
inductive MContent where
  | str (s : String)
  | items (l : List Item)
deriving DecidableEq

/-- An OpenAI-style wire tool call
`{"id": ..., "type": "function", "function": {"name": ..., "arguments": ...}}`
(the constant `"type": "function"` is implicit; `funcName` is
`function.name` and `arguments` is `function.arguments`). -/
structure WireToolCall where
  id : String
  funcName : String
  arguments : String
deriving DecidableEq

/-- One message dict.  Used both for entries of the conversation `messages`
list and for OpenAI-style wire messages (the source passes plain dicts in
both positions; in the Nebius path OpenAI-shaped dicts are appended straight
into `messages`).  A field is `none`/`[]` when the corresponding key is
absent from the dict. -/
structure Msg where
  role : String
  content : Option MContent
  toolCallId : Option String
  toolName : Option String
  toolCalls : Option (List WireToolCall)
deriving DecidableEq

/-- The `choices[0].message` of an OpenAI-style chat-completions response. -/
structure ChoiceMessage where
  content : Option String
  toolCalls : Option (List WireToolCall)
deriving DecidableEq

/-- A typed content block of an Anthropic SDK response (`BetaMessage.content`):
a text block or a tool-use block.  (The source's dead `"thinking"` sub-branch
inside the `BetaTextBlock` case is unreachable for these two shapes and is
not modelled.) -/
inductive RespBlock where
  | textBlock (text : String)
  | toolUseBlock (id nm input : String)
deriving DecidableEq

/-- The internal `ToolResult` dataclass from the `tools` package: optional
output text, error text, base64 screenshot and system annotation. -/
structure ToolResult where
  output : Option String
  error : Option String
  base64_image : Option String
  system : Option String
deriving DecidableEq

/-- The `APIProvider` enum of `loop.py`. -/
inductive APIProvider where
  | anthropic
  | bedrock
  | vertex
  | nebius
deriving DecidableEq

/-- Python truthiness of an optional string (`None` and `""` are falsy). -/
def strTruthy : Option String → Bool
  | some s => s ≠ ""
  | none => false

/-- `_maybe_prepend_system_tool_result` of `loop.py`. -/
def _maybe_prepend_system_tool_result (result : ToolResult) (result_text : String) : String :=
  if strTruthy result.system then
    "<system>" ++ result.system.getD "" ++ "</system>\n" ++ result_text
  else result_text

/-- The `data:{media_type};base64,{data}` URL built for image parts. -/
def dataUrl (mediaType dataStr : String) : String :=
  "data:" ++ mediaType ++ ";base64," ++ dataStr

/-- The synthetic separate user message carrying one image, as built both in
`_convert_anthropic_messages_to_openai` and `_make_nebius_tool_result`. -/
def mkImageUserMsg (url : String) : Msg :=
  ⟨"user", some (.items [⟨.imageUrl url, false⟩]), none, none, none⟩

/-- A `{"role": "tool", "tool_call_id": ..., "content": ...}` wire message as
built in `_convert_anthropic_messages_to_openai` (no `"name"` key there). -/
def mkToolMsg (id content : String) : Msg :=
  ⟨"tool", some (.str content), some id, none, none⟩

/-- Inner loop of the `tool_result` branch of
`_convert_anthropic_messages_to_openai`: accumulates the text of the result
and appends a separate user message per image, in encounter order. -/
def trInner : List TRItem → String × List Msg
  | [] => ("", [])
  | it :: rest =>
    let (txt, msgs) := trInner rest
    match it with
    | .text s => (s ++ txt, msgs)
    | .image mt d => (txt, mkImageUserMsg (dataUrl mt d) :: msgs)
    | .otherTR _ => (txt, msgs)

/-- The block scan of the `"user"` branch of
`_convert_anthropic_messages_to_openai`.  Returns
(image user messages appended during the scan, `content_parts`,
`tool_results`) — the source appends the image messages immediately, then
extends with `tool_results`, then appends the `content_parts` message. -/
def userLoop : List Item → List Msg × List Item × List Msg
  | [] => ([], [], [])
  | it :: rest =>
    let (imgs, parts, trs) := userLoop rest
    match it.block with
    | .text s => (imgs, ⟨.text s, false⟩ :: parts, trs)
    | .image mt d => (imgs, ⟨.imageUrl (dataUrl mt d), false⟩ :: parts, trs)
    | .toolResult tid (.items l) _ =>
        let (txt, innerMsgs) := trInner l
        (innerMsgs ++ imgs, parts, mkToolMsg tid txt :: trs)
    | .toolResult tid (.str s) _ => (imgs, parts, mkToolMsg tid s :: trs)
    | _ => (imgs, parts, trs)

/-- `part.get("text", "")` on a content part dict. -/
def partGetTextD (it : Item) : String :=
  match it.block with
  | .text s => s
  | _ => ""

/-- `content_text` accumulated over an assistant message's blocks. -/
def assistantText : List Item → String
  | [] => ""
  | it :: rest =>
    match it.block with
    | .text s => s ++ assistantText rest
    | _ => assistantText rest

/-- The `tool_calls` list accumulated over an assistant message's blocks
(`arguments` is `json.dumps(input)`, the identity on the opaque payload). -/
def assistantToolCalls : List Item → List WireToolCall
  | [] => []
  | it :: rest =>
    match it.block with
    | .toolUse id nm input => ⟨id, nm, input⟩ :: assistantToolCalls rest
    | _ => assistantToolCalls rest

/-- The `"assistant"` branch of `_convert_anthropic_messages_to_openai`:
`content` key present only when the text is non-empty, `tool_calls` key
present only when at least one tool call was collected. -/
def convertAssistant (l : List Item) : Msg :=
  ⟨"assistant",
   (if assistantText l ≠ "" then some (.str (assistantText l)) else none),
   none, none,
   (if assistantToolCalls l ≠ [] then some (assistantToolCalls l) else none)⟩

/-- Per-message body of `_convert_anthropic_messages_to_openai`. -/
def convertMessageToOpenai (m : Msg) : List Msg :=
  match m.content with
  | some (.str s) => [⟨m.role, some (.str s), none, none, none⟩]
  | some (.items l) =>
    if m.role = "assistant" then [convertAssistant l]
    else if m.role = "user" then
      let (imgs, parts, trs) := userLoop l
      imgs ++ trs ++
        (match parts with
         | [] => []
         | [p] => [⟨"user", some (.str (partGetTextD p)), none, none, none⟩]
         | ps => [⟨"user", some (.items ps), none, none, none⟩])
    else []
  | none => []

/-- `_convert_anthropic_messages_to_openai` of `loop.py`. -/
def _convert_anthropic_messages_to_openai : List Msg → List Msg
  | [] => []
  | m :: rest => convertMessageToOpenai m ++ _convert_anthropic_messages_to_openai rest

/-- `_convert_openai_response_to_anthropic` of `loop.py` (applied to
`choices[0].message`; `json.loads(arguments)` is the identity on the opaque
payload).  An empty-string `content` is falsy and produces no text block;
an absent or empty `tool_calls` contributes no tool-use block. -/
def _convert_openai_response_to_anthropic (choice : ChoiceMessage) : List Item :=
  (if strTruthy choice.content then [⟨Block.text (choice.content.getD ""), false⟩] else [])
  ++ (match choice.toolCalls with
      | some tcs => tcs.map (fun tc => ⟨Block.toolUse tc.id tc.funcName tc.arguments, false⟩)
      | none => [])

/-- `_response_to_params` of `loop.py` for the Anthropic-style providers:
a text block with falsy (empty) text yields nothing, tool-use blocks are
passed through (`model_dump`). -/
def _response_to_params (blocks : List RespBlock) : List Item :=
  match blocks with
  | [] => []
  | .textBlock t :: rest =>
      (if t ≠ "" then [⟨Block.text t, false⟩] else []) ++ _response_to_params rest
  | .toolUseBlock id nm input :: rest =>
      ⟨Block.toolUse id nm input, false⟩ :: _response_to_params rest

/-- `_make_api_tool_result` of `loop.py`: the Anthropic-style
`tool_result` block built from an internal `ToolResult`. -/
def _make_api_tool_result (result : ToolResult) (tool_use_id : String) : Item :=
  if strTruthy result.error then
    ⟨.toolResult tool_use_id
        (.str (_maybe_prepend_system_tool_result result (result.error.getD ""))) true, false⟩
  else
    ⟨.toolResult tool_use_id
        (.items
          ((if strTruthy result.output then
              [TRItem.text (_maybe_prepend_system_tool_result result (result.output.getD ""))]
            else [])
           ++ (if strTruthy result.base64_image then
                 [TRItem.image "image/png" (result.base64_image.getD "")]
               else []))) false, false⟩

/-- `_make_nebius_tool_result` of `loop.py`: the OpenAI-style messages for
one tool result — the tool-role message first, then (when a screenshot is
present) the separate user message carrying the image. -/
def _make_nebius_tool_result (result : ToolResult) (tool_call_id tool_name : String) : List Msg :=
  let toolContent :=
    if strTruthy result.error then
      _maybe_prepend_system_tool_result result (result.error.getD "")
    else if strTruthy result.output then
      _maybe_prepend_system_tool_result result (result.output.getD "")
    else ""
  [⟨"tool", some (.str toolContent), some tool_call_id, some tool_name, none⟩]
  ++ (if strTruthy result.base64_image then
        [mkImageUserMsg ("data:image/png;base64," ++ result.base64_image.getD "")]
      else [])

/-- Is a `tool_result` content item an image dict? -/
def isImageTR : TRItem → Bool
  | .image _ _ => true
  | _ => false

/-- The image items inside one top-level content item (only `tool_result`
blocks with list content hold any, matching the scan in
`_maybe_filter_to_n_most_recent_images`). -/
def itemImages (it : Item) : List TRItem :=
  match it.block with
  | .toolResult _ (.items l) _ => l.filter isImageTR
  | _ => []

/-- The image items inside one message (list-content messages only). -/
def msgImages (m : Msg) : List TRItem :=
  match m.content with
  | some (.items l) => l.flatMap itemImages
  | _ => []

/-- All tool-result images of a conversation, in chronological order. -/
def convImages (msgs : List Msg) : List TRItem :=
  msgs.flatMap msgImages

/-- Inner removal loop of `_maybe_filter_to_n_most_recent_images`: walk a
`tool_result` content list, dropping image items while the removal counter
is positive; every non-image item is kept in order. -/
def filterTRItems : Int → List TRItem → Int × List TRItem
  | r, [] => (r, [])
  | r, it :: rest =>
    if isImageTR it ∧ 0 < r then filterTRItems (r - 1) rest
    else
      let (r', rest') := filterTRItems r rest
      (r', it :: rest')

/-- Apply the removal loop to one top-level item (only `tool_result` blocks
with list content are rewritten). -/
def filterItem : Int → Item → Int × Item
  | r, ⟨.toolResult id (.items l) e, c⟩ =>
      let (r', l') := filterTRItems r l
      (r', ⟨.toolResult id (.items l') e, c⟩)
  | r, it => (r, it)

/-- Thread the removal counter through a message's item list. -/
def filterItems : Int → List Item → Int × List Item
  | r, [] => (r, [])
  | r, it :: rest =>
    let (r1, it') := filterItem r it
    let (r2, rest') := filterItems r1 rest
    (r2, it' :: rest')

/-- Thread the removal counter through one message. -/
def filterMsg : Int → Msg → Int × Msg
  | r, ⟨role, some (.items l), a, b, c⟩ =>
      let (r', l') := filterItems r l
      (r', ⟨role, some (.items l'), a, b, c⟩)
  | r, m => (r, m)

/-- Thread the removal counter through the conversation. -/
def filterMsgs : Int → List Msg → Int × List Msg
  | r, [] => (r, [])
  | r, m :: rest =>
    let (r1, m') := filterMsg r m
    let (r2, rest') := filterMsgs r1 rest
    (r2, m' :: rest')

/-- `_maybe_filter_to_n_most_recent_images` of `loop.py` (pure form: the
source mutates the shared dicts in place; the chronological order of the
collected `tool_result` blocks equals the traversal order here).  The
`images_to_keep is None` guard lives at the call site (`Option Nat` there);
the loop only ever calls this with a positive `min_removal_threshold`, so
Python's `ZeroDivisionError` on `% 0` is out of scope. -/
def _maybe_filter_to_n_most_recent_images
    (messages : List Msg) (images_to_keep min_removal_threshold : Int) : List Msg :=
  let total : Int := (convImages messages).length
  let images_to_remove := total - images_to_keep
  let images_to_remove := images_to_remove - images_to_remove % min_removal_threshold
  (filterMsgs images_to_remove messages).2

/-- Mark (`true`) or unmark (`false`) the `cache_control` key of the last
item of a content list; `content[-1]` on an empty list raises in the source,
so callers guard for emptiness. -/
def markLast (b : Bool) : List Item → List Item
  | [] => []
  | [it] => [⟨it.block, b⟩]
  | it :: rest => it :: markLast b rest

/-- Is a message eligible for a cache breakpoint
(`role == "user"` and list content)? -/
def eligibleMsg (m : Msg) : Bool :=
  decide (m.role = "user") &&
    (match m.content with
     | some (.items _) => true
     | _ => false)

/-- Set/clear the breakpoint marker on the last content item of a message
(identity on non-list content). -/
def setMsgLastCache (b : Bool) (m : Msg) : Msg :=
  match m.content with
  | some (.items l) => ⟨m.role, some (.items (markLast b l)), m.toolCallId, m.toolName, m.toolCalls⟩
  | _ => m

/-- The walk of `_inject_prompt_caching` over the REVERSED message list:
`n` is `breakpoints_remaining`; a `none` result models the `IndexError`
raised by `content[-1]` on an empty content list. -/
def injectAux : Nat → List Msg → Option (List Msg)
  | _, [] => some []
  | n, m :: rest =>
    if eligibleMsg m then
      match m.content with
      | some (.items l) =>
        if l = [] then none
        else if n ≠ 0 then
          (injectAux (n - 1) rest).map (setMsgLastCache true m :: ·)
        else some (setMsgLastCache false m :: rest)
      | _ => none
    else (injectAux n rest).map (m :: ·)

/-- `_inject_prompt_caching` of `loop.py` (pure form). -/
def _inject_prompt_caching (messages : List Msg) : Option (List Msg) :=
  (injectAux 3 messages.reverse).map List.reverse

/-- The history-policy phase at the top of each `sampling_loop` iteration:
for the Anthropic provider prompt caching is enabled, breakpoints are
injected and `only_n_most_recent_images` is reset to `0`, so the image
filter is skipped; otherwise the filter runs iff the caller-supplied
retention count is truthy (both `keep` and the chunk
`image_truncation_threshold` are that count). -/
def prepareMessages (provider : APIProvider) (onlyN : Option Nat) (messages : List Msg) :
    Option (List Msg) :=
  if provider = .anthropic then
    _inject_prompt_caching messages
  else
    match onlyN with
    | some n => if n ≠ 0 then some (_maybe_filter_to_n_most_recent_images messages n n) else some messages
    | none => some messages

/-- Modelled from the spec: `ToolCollection.run` lives in the `tools`
package of this repository, which is not under `src/` (only `loop.py`, its
caller, is).  Per the spec (§4.4 failure semantics), "any exception raised
by the Tool Executor is captured as a `ToolResult{isError:true,
output:<message>}` rather than aborting the loop".  The executor contract
`execute(name, input)` may raise — a raise is modelled as `Except.error` —
and the capture stores the message in the result's `error` field, which is
what makes `_make_api_tool_result` emit `is_error: true`. -/
def toolCollectionRun (execute : String → String → Except String ToolResult)
    (nm input : String) : ToolResult :=
  match execute nm input with
  | .ok r => r
  | .error e => ⟨none, some e, none, none⟩

/-- Caller-supplied callbacks, modelled as a pure event trace. -/
inductive LoopEvent where
  | apiErrorCallback
  | apiResponseCallback
  | outputCallback (item : Item)
  | toolOutputCallback (result : ToolResult) (id : String)
deriving DecidableEq

/-- Outcome of one backend call: an OpenAI-style response (Nebius), an
Anthropic-style response, or any of the caught exception classes
(`APIStatusError`, `APIResponseValidationError`, `APIError`, generic). -/
inductive ApiOutcome where
  | nebiusResponse (choice : ChoiceMessage)
  | anthropicResponse (blocks : List RespBlock)
  | apiFailure
deriving DecidableEq

/-- Is a block a `tool_use` block? -/
def isToolUse : Block → Bool
  | .toolUse _ _ _ => true
  | _ => false

/-- The tool-dispatch loop over the assistant response blocks: fires the
output callback per block, runs each tool call sequentially, collects the
Anthropic-style `tool_result` blocks (non-Nebius) or the Nebius wire
messages, and fires the tool-output callback per call. -/
def dispatchTools (provider : APIProvider)
    (execute : String → String → Except String ToolResult) :
    List Item → List Item × List Msg × List LoopEvent
  | [] => ([], [], [])
  | it :: rest =>
    match it.block with
    | .toolUse id nm input =>
      let result := toolCollectionRun execute nm input
      let (trc, nmsgs, evs) := dispatchTools provider execute rest
      if provider = .nebius then
        (trc, _make_nebius_tool_result result id nm ++ nmsgs,
         .outputCallback it :: .toolOutputCallback result id :: evs)
      else
        (_make_api_tool_result result id :: trc, nmsgs,
         .outputCallback it :: .toolOutputCallback result id :: evs)
    | _ =>
      let (trc, nmsgs, evs) := dispatchTools provider execute rest
      (trc, nmsgs, .outputCallback it :: evs)

/-- The assistant message appended to the conversation after parsing. -/
def mkAssistantMsg (params : List Item) : Msg :=
  ⟨"assistant", some (.items params), none, none, none⟩

/-- Result of one iteration of the `while True` loop: `finished` is a
`return messages`, `continueWith` re-enters the loop, `crash` is an
unhandled exception (the `IndexError` of `_inject_prompt_caching`, or a
script/provider mismatch that cannot arise in the source). -/
inductive IterResult where
  | crash (events : List LoopEvent)
  | finished (messages : List Msg) (events : List LoopEvent)
  | continueWith (messages : List Msg) (events : List LoopEvent)
deriving DecidableEq

/-- One iteration of `sampling_loop`: history policies, the backend call
(whose outcome is supplied), response parsing and appending, tool dispatch,
and the end-of-iteration return/continue decision. -/
def sampling_iteration (provider : APIProvider) (onlyN : Option Nat)
    (execute : String → String → Except String ToolResult)
    (outcome : ApiOutcome) (messages : List Msg) : IterResult :=
  match prepareMessages provider onlyN messages with
  | none => .crash []
  | some msgs1 =>
    match outcome with
    | .apiFailure => .finished msgs1 [.apiErrorCallback]
    | .nebiusResponse choice =>
      if provider = .nebius then
        let params := _convert_openai_response_to_anthropic choice
        let msgs2 := msgs1 ++ [mkAssistantMsg params]
        let (_, nmsgs, evs) := dispatchTools provider execute params
        if nmsgs ≠ [] then .continueWith (msgs2 ++ nmsgs) (.apiResponseCallback :: evs)
        else .finished msgs2 (.apiResponseCallback :: evs)
      else .crash []
    | .anthropicResponse blocks =>
      if provider = .nebius then .crash []
      else
        let params := _response_to_params blocks
        let msgs2 := msgs1 ++ [mkAssistantMsg params]
        let (trc, _, evs) := dispatchTools provider execute params
        if trc ≠ [] then
          .continueWith (msgs2 ++ [⟨"user", some (.items trc), none, none, none⟩])
            (.apiResponseCallback :: evs)
        else .finished msgs2 (.apiResponseCallback :: evs)

/-- Final outcome of a `sampling_loop` run against a finite response
script: `returned` is the loop's `return messages`, `crashed` an unhandled
exception, `outOfScript` means the loop would issue another backend call
beyond the supplied script (i.e. it continued past the last scripted
response). -/
inductive LoopResult where
  | returned (messages : List Msg) (events : List LoopEvent)
  | crashed (events : List LoopEvent)
  | outOfScript (messages : List Msg) (events : List LoopEvent)
deriving DecidableEq

/-- `sampling_loop` of `loop.py`, driven by a response script.  After an
Anthropic-provider iteration the caller-visible
`only_n_most_recent_images` variable has been reset to `0` and stays so
for all later iterations. -/
def sampling_loop (provider : APIProvider) (onlyN : Option Nat)
    (execute : String → String → Except String ToolResult) :
    List ApiOutcome → List Msg → LoopResult
  | [], messages => .outOfScript messages []
  | o :: rest, messages =>
    match sampling_iteration provider onlyN execute o messages with
    | .crash evs => .crashed evs
    | .finished ms evs => .returned ms evs
    | .continueWith ms evs =>
      match sampling_loop provider (if provider = .anthropic then some 0 else onlyN) execute rest ms with
      | .returned ms' evs' => .returned ms' (evs ++ evs')
      | .crashed evs' => .crashed (evs ++ evs')
      | .outOfScript ms' evs' => .outOfScript ms' (evs ++ evs')

/-- The content items of a message (empty for non-list content). -/
def msgItems (m : Msg) : List Item :=
  match m.content with
  | some (.items l) => l
  | _ => []

/-- `markIfElig` applies the breakpoint set exactly as the scan does to an
eligible message it still has budget for. -/
def markIfElig (m : Msg) : Msg :=
  if eligibleMsg m then setMsgLastCache true m else m

/-- Does a message carry a cache-breakpoint marker on any content item? -/
def msgHasMark (m : Msg) : Bool :=
  match m.content with
  | some (.items l) => l.any (fun it => it.cacheControl)
  | _ => false

/-- Delete every image item from a `tool_result` content list. -/
def eraseTR (l : List TRItem) : List TRItem :=
  l.filter (fun it => !isImageTR it)

/-- Delete every tool-result image inside one top-level item. -/
def eraseItem (it : Item) : Item :=
  match it.block with
  | .toolResult id (.items l) e => ⟨.toolResult id (.items (eraseTR l)) e, it.cacheControl⟩
  | _ => it

/-- Delete every tool-result image inside one message. -/
def eraseMsg (m : Msg) : Msg :=
  match m.content with
  | some (.items l) => ⟨m.role, some (.items (l.map eraseItem)), m.toolCallId, m.toolName, m.toolCalls⟩
  | _ => m

/-- A user-content block of none of the types `"text"`, `"image"`,
`"tool_result"` — the kinds the `"user"` branch of
`_convert_anthropic_messages_to_openai` recognises. -/
def unknownUserBlock : Block → Bool
  | .text _ => false
  | .image _ _ => false
  | .toolResult _ _ _ => false
  | _ => true

/-- The assistant response blocks an iteration obtains for a given provider
and backend outcome (`none` on a failure outcome or a provider/outcome
kind mismatch). -/
def responseParamsFor (provider : APIProvider) (o : ApiOutcome) : Option (List Item) :=
  match provider, o with
  | .nebius, .nebiusResponse choice => some (_convert_openai_response_to_anthropic choice)
  | .nebius, _ => none
  | _, .anthropicResponse blocks => some (_response_to_params blocks)
  | _, _ => none

/-- A tool executor stub that always succeeds with an empty result. -/
def execOk : String → String → Except String ToolResult :=
  fun _ _ => .ok ⟨none, none, none, none⟩

/-- A tool executor stub that always raises. -/
def execBoom : String → String → Except String ToolResult :=
  fun _ _ => .error "boom"

/-- A user message with one unmarked text item. -/
def exUserHi : Msg := ⟨"user", some (.items [⟨.text "hi", false⟩]), none, none, none⟩

/-- The same message after the cache-breakpoint annotator marked it. -/
def exUserHiMarked : Msg := ⟨"user", some (.items [⟨.text "hi", true⟩]), none, none, none⟩

/-- A conversation holding an assistant tool call followed by its tool
result carrying text and an image. -/
def exConvC1 : List Msg :=
  [⟨"assistant", some (.items [⟨.toolUse "t1" "computer" "args", false⟩]), none, none, none⟩,
   ⟨"user", some (.items [⟨.toolResult "t1" (.items [.text "ok", .image "image/png" "IMG"]) false, false⟩]), none, none, none⟩]

/-- A conversation with 7 tool-result images spread over three tool
results (and one interleaved text item). -/
def exConvC2 : List Msg :=
  [⟨"user", some (.items [⟨.toolResult "a" (.items [.image "m" "1", .text "x", .image "m" "2", .image "m" "3"]) false, false⟩]), none, none, none⟩,
   ⟨"user", some (.items [⟨.toolResult "b" (.items [.image "m" "4", .image "m" "5"]) false, false⟩,
                          ⟨.toolResult "c" (.items [.image "m" "6", .image "m" "7"]) false, false⟩]), none, none, none⟩]

/-- A conversation with 5 eligible (list-content, non-empty) user messages
and one assistant message, none carrying markers. -/
def exConvC3 : List Msg :=
  [⟨"user", some (.items [⟨.text "u1", false⟩]), none, none, none⟩,
   ⟨"user", some (.items [⟨.text "u2", false⟩]), none, none, none⟩,
   ⟨"user", some (.items [⟨.text "u3", false⟩]), none, none, none⟩,
   ⟨"assistant", some (.items [⟨.text "a", false⟩]), none, none, none⟩,
   ⟨"user", some (.items [⟨.text "u4", false⟩]), none, none, none⟩,
   ⟨"user", some (.items [⟨.text "u5", false⟩]), none, none, none⟩]

/-! Helper lemmas. -/

lemma convert_append (l1 l2 : List Msg) :
    _convert_anthropic_messages_to_openai (l1 ++ l2)
      = _convert_anthropic_messages_to_openai l1 ++ _convert_anthropic_messages_to_openai l2 := by
  induction l1 with
  | nil => rfl
  | cons m rest ih => simp [_convert_anthropic_messages_to_openai, ih]

lemma filterTRItems_spec (l : List TRItem) : ∀ r : Int,
    (filterTRItems r l).2.filter isImageTR = (l.filter isImageTR).drop r.toNat
    ∧ (filterTRItems r l).1 = r - ↑(min r.toNat (l.filter isImageTR).length)
    ∧ eraseTR (filterTRItems r l).2 = eraseTR l := by
  induction l with
  | nil => intro r; simp [filterTRItems, eraseTR]
  | cons it rest ih =>
    intro r
    by_cases him : isImageTR it = true
    · by_cases hr : 0 < r
      · obtain ⟨h1, h2, h3⟩ := ih (r - 1)
        have hnat : r.toNat = (r - 1).toNat + 1 := by omega
        refine ⟨?_, ?_, ?_⟩
        · simp only [filterTRItems, him, hr, and_self, if_true, List.filter_cons, hnat]
          simpa [him] using h1
        · simp only [filterTRItems, him, hr, and_self, if_true, List.filter_cons]
          simp only [him, if_true, List.length_cons]
          omega
        · simp only [filterTRItems, him, hr, and_self, if_true]
          rw [h3]
          simp [eraseTR, him]
      · obtain ⟨h1, h2, h3⟩ := ih r
        have hnat : r.toNat = 0 := by omega
        rcases hres : filterTRItems r rest with ⟨r', rest'⟩
        rw [hres] at h1 h2 h3
        simp only [hnat, List.drop_zero] at h1 h2
        refine ⟨?_, ?_, ?_⟩
        · simp [filterTRItems, him, hr, hres, List.filter_cons, hnat, h1]
        · simp only [Nat.zero_min, Nat.cast_zero, sub_zero] at h2
          simp [filterTRItems, him, hr, hres, hnat, h2]
        · simp only [eraseTR] at h3 ⊢
          simp [filterTRItems, him, hr, hres, List.filter_cons, h3]
    · obtain ⟨h1, h2, h3⟩ := ih r
      rcases hres : filterTRItems r rest with ⟨r', rest'⟩
      rw [hres] at h1 h2 h3
      refine ⟨?_, ?_, ?_⟩
      · simp [filterTRItems, him, hres, List.filter_cons, h1]
      · simp [filterTRItems, him, hres, List.filter_cons, h2]
      · simp only [eraseTR] at h3 ⊢
        simp [filterTRItems, him, hres, List.filter_cons, h3]

lemma filterItem_spec (r : Int) (it : Item) :
    itemImages (filterItem r it).2 = (itemImages it).drop r.toNat
    ∧ (filterItem r it).1 = r - ↑(min r.toNat (itemImages it).length)
    ∧ eraseItem (filterItem r it).2 = eraseItem it := by
  obtain ⟨blk, c⟩ := it
  cases blk with
  | toolResult id cont e =>
    cases cont with
    | items l =>
      obtain ⟨h1, h2, h3⟩ := filterTRItems_spec l r
      rcases hres : filterTRItems r l with ⟨r', l'⟩
      rw [hres] at h1 h2 h3
      refine ⟨?_, ?_, ?_⟩
      · simpa [filterItem, hres, itemImages] using h1
      · simpa [filterItem, hres, itemImages] using h2
      · simpa [filterItem, hres, eraseItem] using h3
    | str s => simp [filterItem, itemImages, eraseItem]
  | text s => simp [filterItem, itemImages, eraseItem]
  | image mt d => simp [filterItem, itemImages, eraseItem]
  | toolUse a b cc => simp [filterItem, itemImages, eraseItem]
  | imageUrl u => simp [filterItem, itemImages, eraseItem]
  | otherBlock t => simp [filterItem, itemImages, eraseItem]

lemma filterItems_spec (l : List Item) : ∀ r : Int,
    (filterItems r l).2.flatMap itemImages = (l.flatMap itemImages).drop r.toNat
    ∧ (filterItems r l).1 = r - ↑(min r.toNat (l.flatMap itemImages).length)
    ∧ (filterItems r l).2.map eraseItem = l.map eraseItem := by
  induction l with
  | nil => intro r; simp [filterItems]
  | cons it rest ih =>
    intro r
    obtain ⟨h1, h2, h3⟩ := filterItem_spec r it
    rcases hit : filterItem r it with ⟨r1, it'⟩
    rw [hit] at h1 h2 h3
    obtain ⟨g1, g2, g3⟩ := ih r1
    rcases hrest : filterItems r1 rest with ⟨r2, rest'⟩
    rw [hrest] at g1 g2 g3
    have hnat1 : r1.toNat = r.toNat - (itemImages it).length := by omega
    refine ⟨?_, ?_, ?_⟩
    · simp only [filterItems, hit, hrest, List.flatMap_cons]
      rw [List.drop_append_eq_append_drop, h1, g1, hnat1]
    · simp only [filterItems, hit, hrest, List.flatMap_cons, List.length_append]
      omega
    · simp only [filterItems, hit, hrest, List.map_cons, h3, g3]

lemma filterMsg_spec (r : Int) (m : Msg) :
    msgImages (filterMsg r m).2 = (msgImages m).drop r.toNat
    ∧ (filterMsg r m).1 = r - ↑(min r.toNat (msgImages m).length)
    ∧ eraseMsg (filterMsg r m).2 = eraseMsg m := by
  obtain ⟨role, cont, a, b, c⟩ := m
  match cont with
  | some (.items l) =>
    obtain ⟨h1, h2, h3⟩ := filterItems_spec l r
    rcases hres : filterItems r l with ⟨r', l'⟩
    rw [hres] at h1 h2 h3
    refine ⟨?_, ?_, ?_⟩
    · simpa [filterMsg, hres, msgImages] using h1
    · simpa [filterMsg, hres, msgImages] using h2
    · simpa [filterMsg, hres, eraseMsg] using h3
  | some (.str s) => simp [filterMsg, msgImages, eraseMsg]
  | none => simp [filterMsg, msgImages, eraseMsg]

lemma filterMsgs_spec (msgs : List Msg) : ∀ r : Int,
    convImages (filterMsgs r msgs).2 = (convImages msgs).drop r.toNat
    ∧ (filterMsgs r msgs).1 = r - ↑(min r.toNat (convImages msgs).length)
    ∧ (filterMsgs r msgs).2.map eraseMsg = msgs.map eraseMsg := by
  induction msgs with
  | nil => intro r; simp [filterMsgs, convImages]
  | cons m rest ih =>
    intro r
    obtain ⟨h1, h2, h3⟩ := filterMsg_spec r m
    rcases hm : filterMsg r m with ⟨r1, m'⟩
    rw [hm] at h1 h2 h3
    obtain ⟨g1, g2, g3⟩ := ih r1
    rcases hrest : filterMsgs r1 rest with ⟨r2, rest'⟩
    rw [hrest] at g1 g2 g3
    have hnat1 : r1.toNat = r.toNat - (msgImages m).length := by omega
    refine ⟨?_, ?_, ?_⟩
    · simp only [filterMsgs, hm, hrest, convImages, List.flatMap_cons]
      simp only [convImages] at h1 g1
      rw [List.drop_append_eq_append_drop, h1, g1, hnat1]
    · simp only [filterMsgs, hm, hrest, convImages, List.flatMap_cons, List.length_append]
      simp only [convImages] at g2
      omega
    · simp only [filterMsgs, hm, hrest, List.map_cons, h3, g3]

lemma removal_toNat (total keep chunk : Nat) (hchunk : 1 ≤ chunk) :
    (((total : Int) - keep) - ((total : Int) - keep) % chunk).toNat
      = (total - keep) / chunk * chunk := by
  rcases le_or_lt keep total with hle | hlt
  · have he : (total : Int) - keep = ((total - keep : Nat) : Int) := by
      push_cast [hle]; ring
    rw [he]
    set e := total - keep with hedef
    have hmod : ((e : Int)) % ((chunk : Nat) : Int) = ((e % chunk : Nat) : Int) := by
      push_cast; rfl
    rw [hmod]
    have hmle : e % chunk ≤ e := Nat.mod_le e chunk
    have hsub : ((e : Int)) - ((e % chunk : Nat) : Int) = ((e - e % chunk : Nat) : Int) := by
      push_cast [hmle]; ring
    rw [hsub, Int.toNat_natCast]
    have hdm := Nat.div_add_mod e chunk
    rw [Nat.mul_comm chunk (e / chunk)] at hdm
    omega
  · have he : (total : Int) - keep < 0 := by
      have : (total : Int) < keep := by exact_mod_cast hlt
      omega
    have hmod : 0 ≤ ((total : Int) - keep) % chunk := by
      apply Int.emod_nonneg
      have : (0 : Int) < chunk := by exact_mod_cast hchunk
      omega
    have hz : total - keep = 0 := by omega
    rw [hz]
    simp only [Nat.zero_div, Nat.zero_mul]
    omega

/-- C2: for every conversation and every `keep ≥ 1`, `chunk ≥ 1`, the
image-retention policy removes exactly `max(0, total - keep)` rounded down
to the nearest multiple of `chunk` images, oldest first — the surviving
tool-result images are exactly the newest ones (conjunct 1, stated as a
`drop` of the chronological image sequence; `total - keep` is truncated
natural subtraction, i.e. `max(0, ...)`) — and everything that is not a
removed image is left unchanged and in order (conjunct 2: the conversations
agree after deleting every tool-result image). -/
theorem c2_image_retention_policy (msgs : List Msg) (keep chunk : Nat)
    (hkeep : 1 ≤ keep) (hchunk : 1 ≤ chunk) :
    convImages (_maybe_filter_to_n_most_recent_images msgs keep chunk)
      = (convImages msgs).drop (((convImages msgs).length - keep) / chunk * chunk)
    ∧ (_maybe_filter_to_n_most_recent_images msgs keep chunk).map eraseMsg
      = msgs.map eraseMsg := by
  have hspec := filterMsgs_spec msgs
    ((((convImages msgs).length : Int) - keep)
      - ((((convImages msgs).length : Int) - keep) % chunk))
  have hnat := removal_toNat (convImages msgs).length keep chunk hchunk
  unfold _maybe_filter_to_n_most_recent_images
  exact ⟨by rw [hspec.1, hnat], hspec.2.2⟩

/-- Witness for C2 at the spec's own example: `keep = 1`, `chunk = 3`,
7 images across tool results — 6 images are removed oldest-first and 1
remains. -/
theorem c2_image_retention_policy_witness :
    (1 : Nat) ≤ 1 ∧ (1 : Nat) ≤ 3
    ∧ (convImages (_maybe_filter_to_n_most_recent_images exConvC2 1 3)
        = (convImages exConvC2).drop (((convImages exConvC2).length - 1) / 3 * 3)
      ∧ (_maybe_filter_to_n_most_recent_images exConvC2 1 3).map eraseMsg
        = exConvC2.map eraseMsg) :=
  ⟨by decide, by decide, c2_image_retention_policy exConvC2 1 3 (by decide) (by decide)⟩

lemma markLast_any_true : ∀ l : List Item, l ≠ [] →
    (markLast true l).any (fun it => it.cacheControl) = true
  | [], h => by simp at h
  | [it], _ => by simp [markLast]
  | it :: it2 :: rest, _ => by
    simp [markLast]
    right
    have := markLast_any_true (it2 :: rest) (by simp)
    simpa [markLast] using this

lemma markLast_any_false : ∀ l : List Item,
    l.any (fun it => it.cacheControl) = false →
    (markLast false l).any (fun it => it.cacheControl) = false
  | [], _ => by simp [markLast]
  | [it], _ => by simp [markLast]
  | it :: it2 :: rest, h => by
    rw [List.any_cons, Bool.or_eq_false_iff] at h
    have hrec := markLast_any_false (it2 :: rest) h.2
    show (it :: markLast false (it2 :: rest)).any (fun it => it.cacheControl) = false
    rw [List.any_cons, Bool.or_eq_false_iff]
    exact ⟨h.1, hrec⟩

lemma eligibleMsg_elim (m : Msg) (h : eligibleMsg m = true) :
    m.role = "user" ∧ ∃ l, m.content = some (.items l) := by
  rcases hc : m.content with _ | mc
  · simp [eligibleMsg, hc] at h
  · cases mc with
    | str s => simp [eligibleMsg, hc] at h
    | items l =>
      simp [eligibleMsg, hc] at h
      exact ⟨h, l, rfl⟩

lemma msgHasMark_setFalse (m : Msg) (h : msgHasMark m = false) :
    msgHasMark (setMsgLastCache false m) = false := by
  rcases hc : m.content with _ | mc
  · simpa [setMsgLastCache, msgHasMark, hc] using h
  · cases mc with
    | str s => simpa [setMsgLastCache, msgHasMark, hc] using h
    | items l =>
      simp [msgHasMark, hc] at h
      simp [setMsgLastCache, msgHasMark, hc]
      have := markLast_any_false l (by simpa using h)
      simpa using this

lemma msgHasMark_setTrue (m : Msg) (l : List Item)
    (hc : m.content = some (.items l)) (hne : l ≠ []) :
    msgHasMark (setMsgLastCache true m) = true := by
  simp [setMsgLastCache, msgHasMark, hc]
  have := markLast_any_true l hne
  simpa using this

lemma injectAux_spec : ∀ (rl : List Msg) (n : Nat),
    (∀ m ∈ rl, eligibleMsg m = true → msgItems m ≠ []) →
    n + 1 ≤ rl.countP eligibleMsg →
    ∃ a m b, rl = a ++ m :: b
      ∧ a.countP eligibleMsg = n
      ∧ eligibleMsg m = true
      ∧ injectAux n rl = some (a.map markIfElig ++ setMsgLastCache false m :: b)
  | [], n => by intro _ h2; simp at h2
  | m0 :: rest, n => by
    intro h1 h2
    by_cases he : eligibleMsg m0 = true
    · obtain ⟨hrole, l, hc⟩ := eligibleMsg_elim m0 he
      have hl : l ≠ [] := by
        have := h1 m0 (by simp) he
        simpa [msgItems, hc] using this
      cases n with
      | zero =>
        refine ⟨[], m0, rest, by simp, by simp, he, ?_⟩
        simp [injectAux, he, hc, hl]
      | succ k =>
        have h2' : k + 1 ≤ rest.countP eligibleMsg := by
          simp [List.countP_cons, he] at h2
          omega
        obtain ⟨a', m, b, heq, hcount, helig, hinj⟩ :=
          injectAux_spec rest k (fun x hx => h1 x (by simp [hx])) h2'
        refine ⟨m0 :: a', m, b, by simp [heq], ?_, helig, ?_⟩
        · simp [List.countP_cons, he, hcount]
        · simp [injectAux, he, hc, hl, hinj, markIfElig]
    · have h2' : n + 1 ≤ rest.countP eligibleMsg := by
        simp [List.countP_cons, he] at h2
        omega
      obtain ⟨a', m, b, heq, hcount, helig, hinj⟩ :=
        injectAux_spec rest n (fun x hx => h1 x (by simp [hx])) h2'
      refine ⟨m0 :: a', m, b, by simp [heq], ?_, helig, ?_⟩
      · simp [List.countP_cons, he, hcount]
      · simp [injectAux, he, hinj, markIfElig]

lemma countP_reverse_eq (p : Msg → Bool) (l : List Msg) :
    l.reverse.countP p = l.countP p := by
  simp [List.countP_eq_length_filter]

/-- C3: on a conversation whose user messages with list content are
non-empty and of which at least 4 exist, the annotator splits the
conversation as `pre ++ m4 :: suf` where `suf` holds exactly the 3 most
recent eligible user messages: those 3 get the breakpoint flag on their
last content item (`markIfElig`), `m4` — the 4th most recent eligible user
message — has any flag cleared from its last item, and everything in `pre`
is left untouched (the scan stops).  If no message carried a marker before,
exactly 3 messages carry one afterwards. -/
theorem c3_cache_breakpoints (msgs : List Msg)
    (h1 : ∀ m ∈ msgs, eligibleMsg m = true → msgItems m ≠ [])
    (h2 : 4 ≤ msgs.countP eligibleMsg) :
    ∃ pre m4 suf, msgs = pre ++ m4 :: suf
      ∧ eligibleMsg m4 = true
      ∧ suf.countP eligibleMsg = 3
      ∧ _inject_prompt_caching msgs
          = some (pre ++ setMsgLastCache false m4 :: suf.map markIfElig)
      ∧ (msgs.countP msgHasMark = 0 →
          (pre ++ setMsgLastCache false m4 :: suf.map markIfElig).countP msgHasMark = 3) := by
  have h1' : ∀ m ∈ msgs.reverse, eligibleMsg m = true → msgItems m ≠ [] := by
    intro m hm
    exact h1 m (List.mem_reverse.mp hm)
  have h2' : 3 + 1 ≤ msgs.reverse.countP eligibleMsg := by
    rw [countP_reverse_eq]
    omega
  obtain ⟨a, m, b, heq, hcount, helig, hinj⟩ := injectAux_spec msgs.reverse 3 h1' h2'
  have hmsgs : msgs = b.reverse ++ m :: a.reverse := by
    have := congrArg List.reverse heq
    simpa using this
  refine ⟨b.reverse, m, a.reverse, hmsgs, helig, ?_, ?_, ?_⟩
  · rw [countP_reverse_eq]
    exact hcount
  · unfold _inject_prompt_caching
    rw [hinj]
    simp [List.reverse_append, List.map_reverse]
  · intro hz
    have hzall : ∀ x ∈ msgs, msgHasMark x = false := by
      intro x hx
      have := List.countP_eq_zero.mp hz x hx
      simpa using this
    have hpre : (b.reverse).countP msgHasMark = 0 := by
      apply List.countP_eq_zero.mpr
      intro x hx
      have hxm : x ∈ msgs := by rw [hmsgs]; exact List.mem_append_left _ hx
      simp [hzall x hxm]
    have hm4 : msgHasMark (setMsgLastCache false m) = false := by
      apply msgHasMark_setFalse
      apply hzall
      rw [hmsgs]
      exact List.mem_append_right _ (List.mem_cons_self _ _)
    have hsuf : List.countP (msgHasMark ∘ markIfElig) a = 3 := by
      have hcongr : List.countP (msgHasMark ∘ markIfElig) a = List.countP eligibleMsg a := by
        apply List.countP_congr
        intro x hx
        have hxm : x ∈ msgs := by
          rw [hmsgs]
          exact List.mem_append_right _ (List.mem_cons_of_mem _ (List.mem_reverse.mpr hx))
        by_cases hex : eligibleMsg x = true
        · obtain ⟨_, l, hc⟩ := eligibleMsg_elim x hex
          have hl : l ≠ [] := by
            have := h1 x hxm hex
            simpa [msgItems, hc] using this
          simp [Function.comp, markIfElig, hex, msgHasMark_setTrue x l hc hl]
        · simp [Function.comp, markIfElig, hex, hzall x hxm]
      rw [hcongr, hcount]
    simp [List.countP_append, List.countP_cons, hpre, hm4, hsuf]

/-- Witness for C3: the 6-message conversation `exConvC3` with 5 eligible
user messages and no prior markers. -/
theorem c3_cache_breakpoints_witness :
    4 ≤ exConvC3.countP eligibleMsg
    ∧ (∃ pre m4 suf, exConvC3 = pre ++ m4 :: suf
        ∧ eligibleMsg m4 = true
        ∧ suf.countP eligibleMsg = 3
        ∧ _inject_prompt_caching exConvC3
            = some (pre ++ setMsgLastCache false m4 :: suf.map markIfElig)
        ∧ (exConvC3.countP msgHasMark = 0 →
            (pre ++ setMsgLastCache false m4 :: suf.map markIfElig).countP msgHasMark = 3)) :=
  ⟨by decide, c3_cache_breakpoints exConvC3 (by decide) (by decide)⟩

lemma itemImages_mk (blk : Block) (b c : Bool) :
    itemImages ⟨blk, b⟩ = itemImages ⟨blk, c⟩ := by
  cases blk <;> rfl

lemma markLast_flatMap (b : Bool) : ∀ l : List Item,
    (markLast b l).flatMap itemImages = l.flatMap itemImages
  | [] => by simp [markLast]
  | [it] => by
    obtain ⟨blk, c⟩ := it
    simp [markLast, itemImages_mk blk b c]
  | it :: it2 :: rest => by
    have := markLast_flatMap b (it2 :: rest)
    show (it :: markLast b (it2 :: rest)).flatMap itemImages = _
    simp only [List.flatMap_cons, this]

lemma msgImages_setMsgLastCache (b : Bool) (m : Msg) :
    msgImages (setMsgLastCache b m) = msgImages m := by
  rcases hc : m.content with _ | mc
  · simp [setMsgLastCache, msgImages, hc]
  · cases mc with
    | str s => simp [setMsgLastCache, msgImages, hc]
    | items l => simp [setMsgLastCache, msgImages, hc, markLast_flatMap]

lemma injectAux_length : ∀ (rl : List Msg) (n : Nat) (out : List Msg),
    injectAux n rl = some out → out.length = rl.length
  | [], n, out => by
    intro h
    simp [injectAux] at h
    simp [← h]
  | m0 :: rest, n, out => by
    intro h
    by_cases he : eligibleMsg m0 = true
    · obtain ⟨hrole, l, hc⟩ := eligibleMsg_elim m0 he
      by_cases hl : l = []
      · simp [injectAux, he, hc, hl] at h
      · by_cases hn : n = 0
        · simp [injectAux, he, hc, hl, hn] at h
          simp [← h]
        · simp [injectAux, he, hc, hl, hn] at h
          obtain ⟨out', hout', rfl⟩ := h
          simp [injectAux_length rest (n - 1) out' hout']
    · simp [injectAux, he] at h
      obtain ⟨out', hout', rfl⟩ := h
      simp [injectAux_length rest n out' hout']

lemma injectAux_msgImages : ∀ (rl : List Msg) (n : Nat) (out : List Msg),
    injectAux n rl = some out → out.map msgImages = rl.map msgImages
  | [], n, out => by
    intro h
    simp [injectAux] at h
    simp [← h]
  | m0 :: rest, n, out => by
    intro h
    by_cases he : eligibleMsg m0 = true
    · obtain ⟨hrole, l, hc⟩ := eligibleMsg_elim m0 he
      by_cases hl : l = []
      · simp [injectAux, he, hc, hl] at h
      · by_cases hn : n = 0
        · simp [injectAux, he, hc, hl, hn] at h
          simp [← h, msgImages_setMsgLastCache]
        · simp [injectAux, he, hc, hl, hn] at h
          obtain ⟨out', hout', rfl⟩ := h
          simp [injectAux_msgImages rest (n - 1) out' hout', msgImages_setMsgLastCache]
    · simp [injectAux, he] at h
      obtain ⟨out', hout', rfl⟩ := h
      simp [injectAux_msgImages rest n out' hout']

lemma convImages_of_map_eq (l1 l2 : List Msg)
    (h : l1.map msgImages = l2.map msgImages) : convImages l1 = convImages l2 := by
  unfold convImages
  rw [List.flatMap_def, List.flatMap_def, h]

lemma inject_length (msgs out : List Msg)
    (h : _inject_prompt_caching msgs = some out) : out.length = msgs.length := by
  simp [_inject_prompt_caching] at h
  obtain ⟨out', hout', rfl⟩ := h
  simpa using injectAux_length msgs.reverse 3 out' hout'

lemma inject_convImages (msgs out : List Msg)
    (h : _inject_prompt_caching msgs = some out) : convImages out = convImages msgs := by
  simp [_inject_prompt_caching] at h
  obtain ⟨out', hout', rfl⟩ := h
  apply convImages_of_map_eq
  have hmap := injectAux_msgImages msgs.reverse 3 out' hout'
  have h2 : out'.reverse.map msgImages = (out'.map msgImages).reverse := by simp
  rw [h2, hmap]
  simp

lemma filterMsgs_length (r : Int) (msgs : List Msg) :
    (filterMsgs r msgs).2.length = msgs.length := by
  have h := (filterMsgs_spec msgs r).2.2
  have := congrArg List.length h
  simpa using this

lemma prepare_length (provider : APIProvider) (onlyN : Option Nat) (msgs p : List Msg)
    (h : prepareMessages provider onlyN msgs = some p) : p.length = msgs.length := by
  by_cases hp : provider = APIProvider.anthropic
  · unfold prepareMessages at h
    rw [if_pos hp] at h
    exact inject_length msgs p h
  · unfold prepareMessages at h
    rw [if_neg hp] at h
    cases onlyN with
    | none =>
      simp at h
      simp [← h]
    | some n =>
      by_cases hn : n = 0
      · simp [hn] at h
        simp [← h]
      · simp [hn] at h
        rw [← h]
        unfold _maybe_filter_to_n_most_recent_images
        exact filterMsgs_length _ _

/-- C9: with the Anthropic provider the iteration's history-policy phase is
exactly the prompt-cache injection — the effective image-retention count is
reset to `0`, so the trimmer never runs whatever positive count the caller
supplied — and no tool-result image is removed from the conversation. -/
theorem c9_anthropic_disables_image_trimming (msgs p : List Msg) (n : Nat)
    (hn : 1 ≤ n) (hp : _inject_prompt_caching msgs = some p) :
    prepareMessages .anthropic (some n) msgs = some p
    ∧ convImages p = convImages msgs := by
  refine ⟨?_, inject_convImages msgs p hp⟩
  rw [prepareMessages, if_pos rfl]
  exact hp

/-- Witness for C9 on a conversation holding a tool-result image behind a
user message: the policy phase keeps the image. -/
theorem c9_anthropic_disables_image_trimming_witness :
    (1 : Nat) ≤ 1
    ∧ _inject_prompt_caching exConvC2 = some (_inject_prompt_caching exConvC2).get!
    ∧ (prepareMessages .anthropic (some 1) exConvC2
        = some (_inject_prompt_caching exConvC2).get!
      ∧ convImages (_inject_prompt_caching exConvC2).get! = convImages exConvC2) :=
  ⟨by decide, by decide,
   c9_anthropic_disables_image_trimming exConvC2 (_inject_prompt_caching exConvC2).get! 1
     (by decide) (by decide)⟩

lemma dispatch_no_tools (provider : APIProvider)
    (execute : String → String → Except String ToolResult) :
    ∀ params : List Item, params.all (fun it => !isToolUse it.block) = true →
    dispatchTools provider execute params = ([], [], params.map LoopEvent.outputCallback)
  | [], _ => by simp [dispatchTools]
  | it :: rest, h => by
    rw [List.all_cons, Bool.and_eq_true] at h
    have hrec := dispatch_no_tools provider execute rest h.2
    obtain ⟨blk, c⟩ := it
    cases blk with
    | text s => simp [dispatchTools, hrec]
    | image mt d => simp [dispatchTools, hrec]
    | toolUse a b cc => exact absurd h.1 (by simp [isToolUse])
    | toolResult tid tc te => simp [dispatchTools, hrec]
    | imageUrl u => simp [dispatchTools, hrec]
    | otherBlock t => simp [dispatchTools, hrec]

/-- C4 (amended): when the first response carries zero tool calls the loop
terminates on that first iteration, appending exactly one message — the
assistant message — to the policy-adjusted conversation; the returned
conversation's length is the initial length plus one (the in-place history
policies may have edited existing messages, which is why the conclusion is
stated over the policy output `p` of the same length). -/
theorem c4_zero_tool_calls_terminates (provider : APIProvider) (onlyN : Option Nat)
    (execute : String → String → Except String ToolResult)
    (o : ApiOutcome) (rest : List ApiOutcome) (msgs p : List Msg) (params : List Item)
    (hprep : prepareMessages provider onlyN msgs = some p)
    (hresp : responseParamsFor provider o = some params)
    (hnt : params.all (fun it => !isToolUse it.block) = true) :
    sampling_loop provider onlyN execute (o :: rest) msgs
      = .returned (p ++ [mkAssistantMsg params])
          (.apiResponseCallback :: params.map LoopEvent.outputCallback)
    ∧ (p ++ [mkAssistantMsg params]).length = msgs.length + 1 := by
  have hlen := prepare_length provider onlyN msgs p hprep
  have hdisp := dispatch_no_tools provider execute params hnt
  refine ⟨?_, by simp [hlen]⟩
  cases provider with
  | nebius =>
    cases o with
    | nebiusResponse choice =>
      simp only [responseParamsFor, Option.some_inj] at hresp
      simp [sampling_loop, sampling_iteration, hprep, hresp, hdisp]
    | anthropicResponse blocks => simp [responseParamsFor] at hresp
    | apiFailure => simp [responseParamsFor] at hresp
  | anthropic =>
    cases o with
    | anthropicResponse blocks =>
      simp only [responseParamsFor, Option.some_inj] at hresp
      simp [sampling_loop, sampling_iteration, hprep, hresp, hdisp]
    | nebiusResponse choice => simp [responseParamsFor] at hresp
    | apiFailure => simp [responseParamsFor] at hresp
  | bedrock =>
    cases o with
    | anthropicResponse blocks =>
      simp only [responseParamsFor, Option.some_inj] at hresp
      simp [sampling_loop, sampling_iteration, hprep, hresp, hdisp]
    | nebiusResponse choice => simp [responseParamsFor] at hresp
    | apiFailure => simp [responseParamsFor] at hresp
  | vertex =>
    cases o with
    | anthropicResponse blocks =>
      simp only [responseParamsFor, Option.some_inj] at hresp
      simp [sampling_loop, sampling_iteration, hprep, hresp, hdisp]
    | nebiusResponse choice => simp [responseParamsFor] at hresp
    | apiFailure => simp [responseParamsFor] at hresp

/-- Witness for C4 (amended) on the Nebius provider with a text-only
response. -/
theorem c4_zero_tool_calls_terminates_witness :
    prepareMessages .nebius none [] = some []
    ∧ responseParamsFor .nebius (.nebiusResponse ⟨some "hello", none⟩)
        = some [⟨.text "hello", false⟩]
    ∧ (sampling_loop .nebius none execOk [.nebiusResponse ⟨some "hello", none⟩] []
        = .returned ([] ++ [mkAssistantMsg [⟨.text "hello", false⟩]])
            (.apiResponseCallback :: [(⟨.text "hello", false⟩ : Item)].map LoopEvent.outputCallback)
      ∧ (([] : List Msg) ++ [mkAssistantMsg [⟨.text "hello", false⟩]]).length
          = ([] : List Msg).length + 1) :=
  ⟨by decide, by decide,
   c4_zero_tool_calls_terminates .nebius none execOk
     (.nebiusResponse ⟨some "hello", none⟩) [] [] [] [⟨.text "hello", false⟩]
     (by decide) (by decide) (by decide)⟩

/-- C4 counterexample: with the Anthropic provider the loop terminates on a
zero-tool-call response with length initial + 1, but the initial user
message has been changed in place (the cache-breakpoint flag was set), so
"no other message added or changed" is false as stated. -/
theorem c4_initial_message_changed_counterexample :
    sampling_loop .anthropic none execOk [.anthropicResponse [.textBlock "done"]] [exUserHi]
      = .returned [exUserHiMarked, mkAssistantMsg [⟨.text "done", false⟩]]
          [.apiResponseCallback, .outputCallback ⟨.text "done", false⟩]
    ∧ exUserHiMarked ≠ exUserHi :=
  ⟨by decide, by decide⟩

/-- C5 (amended): on any scripted backend failure the loop invokes the
diagnostic callback (the sole event is `apiErrorCallback`) and returns the
policy-adjusted conversation with nothing appended: no assistant message
and no tool result (same length as the initial conversation). -/
theorem c5_transport_failure_appends_nothing (provider : APIProvider) (onlyN : Option Nat)
    (execute : String → String → Except String ToolResult)
    (rest : List ApiOutcome) (msgs p : List Msg)
    (hprep : prepareMessages provider onlyN msgs = some p) :
    sampling_loop provider onlyN execute (.apiFailure :: rest) msgs
      = .returned p [.apiErrorCallback]
    ∧ p.length = msgs.length := by
  refine ⟨?_, prepare_length provider onlyN msgs p hprep⟩
  simp [sampling_loop, sampling_iteration, hprep]

/-- Witness for C5 (amended) on the Nebius provider. -/
theorem c5_transport_failure_appends_nothing_witness :
    prepareMessages .nebius none [exUserHi] = some [exUserHi]
    ∧ (sampling_loop .nebius none execOk [.apiFailure] [exUserHi]
        = .returned [exUserHi] [.apiErrorCallback]
      ∧ ([exUserHi] : List Msg).length = ([exUserHi] : List Msg).length) :=
  ⟨by decide,
   c5_transport_failure_appends_nothing .nebius none execOk [] [exUserHi] [exUserHi] (by decide)⟩

/-- C5 counterexample: with the Anthropic provider a failing backend call
returns the conversation with the cache-breakpoint flag freshly set on the
initial user message — not "exactly as it was at the start of that
iteration" (though nothing was appended). -/
theorem c5_conversation_changed_counterexample :
    sampling_loop .anthropic none execOk [.apiFailure] [exUserHi]
      = .returned [exUserHiMarked] [.apiErrorCallback]
    ∧ exUserHiMarked ≠ exUserHi :=
  ⟨by decide, by decide⟩

/-- C8: if the tool executor raises (`Except.error e` under the
spec-modelled `toolCollectionRun`), the failure is captured as a
`ToolResult` whose error field carries the message, the corresponding
result message is appended — with `is_error: true` on the Anthropic path,
and as the error-text tool message on the Nebius path — and the loop
continues to the next iteration (the run ends `outOfScript`, i.e. asking
for another backend call, not by returning or raising). -/
theorem c8_tool_exception_becomes_error_result (msgs p : List Msg)
    (execute : String → String → Except String ToolResult)
    (id nm input e : String)
    (hprep : _inject_prompt_caching msgs = some p)
    (hexec : execute nm input = .error e)
    (he : e ≠ "") :
    sampling_loop .anthropic none execute
        [.anthropicResponse [.toolUseBlock id nm input]] msgs
      = .outOfScript
          (p ++ [mkAssistantMsg [⟨.toolUse id nm input, false⟩],
                 ⟨"user", some (.items [⟨.toolResult id (.str e) true, false⟩]), none, none, none⟩])
          [.apiResponseCallback, .outputCallback ⟨.toolUse id nm input, false⟩,
           .toolOutputCallback ⟨none, some e, none, none⟩ id]
    ∧ sampling_loop .nebius none execute
        [.nebiusResponse ⟨none, some [⟨id, nm, input⟩]⟩] msgs
      = .outOfScript
          (msgs ++ [mkAssistantMsg [⟨.toolUse id nm input, false⟩],
                    ⟨"tool", some (.str e), some id, some nm, none⟩])
          [.apiResponseCallback, .outputCallback ⟨.toolUse id nm input, false⟩,
           .toolOutputCallback ⟨none, some e, none, none⟩ id] := by
  have hprep1 : prepareMessages .anthropic none msgs = some p := by
    unfold prepareMessages
    simpa using hprep
  have hprep2 : prepareMessages .nebius none msgs = some msgs := rfl
  constructor
  · simp [sampling_loop, sampling_iteration, hprep1, _response_to_params,
      dispatchTools, toolCollectionRun, hexec, _make_api_tool_result,
      _maybe_prepend_system_tool_result, strTruthy, he]
  · simp [sampling_loop, sampling_iteration, hprep2, _convert_openai_response_to_anthropic,
      dispatchTools, toolCollectionRun, hexec, _make_nebius_tool_result,
      _maybe_prepend_system_tool_result, strTruthy, he]

/-- Witness for C8 with the always-raising executor stub. -/
theorem c8_tool_exception_becomes_error_result_witness :
    _inject_prompt_caching [] = some []
    ∧ execBoom "bash" "ls" = .error "boom"
    ∧ ("boom" : String) ≠ ""
    ∧ (sampling_loop .anthropic none execBoom
          [.anthropicResponse [.toolUseBlock "t1" "bash" "ls"]] []
        = .outOfScript
            ([] ++ [mkAssistantMsg [⟨.toolUse "t1" "bash" "ls", false⟩],
                    ⟨"user", some (.items [⟨.toolResult "t1" (.str "boom") true, false⟩]), none, none, none⟩])
            [.apiResponseCallback, .outputCallback ⟨.toolUse "t1" "bash" "ls", false⟩,
             .toolOutputCallback ⟨none, some "boom", none, none⟩ "t1"]
      ∧ sampling_loop .nebius none execBoom
          [.nebiusResponse ⟨none, some [⟨"t1", "bash", "ls"⟩]⟩] []
        = .outOfScript
            ([] ++ [mkAssistantMsg [⟨.toolUse "t1" "bash" "ls", false⟩],
                    ⟨"tool", some (.str "boom"), some "t1", some "bash", none⟩])
            [.apiResponseCallback, .outputCallback ⟨.toolUse "t1" "bash" "ls", false⟩,
             .toolOutputCallback ⟨none, some "boom", none, none⟩ "t1"]) :=
  ⟨by decide, rfl, by decide,
   c8_tool_exception_becomes_error_result [] [] execBoom "t1" "bash" "ls" "boom"
     (by decide) rfl (by decide)⟩

/-- C1 (amended): a tool result carrying an image yields exactly two wire
messages on both paths, but with opposite orders.  Freshly appending via
`_make_nebius_tool_result` emits the tool-role message first, then the
separate user message carrying the image; re-translating the conversation
via `_convert_anthropic_messages_to_openai` emits the synthetic user image
message first and the tool-role message after it (the source appends image
messages during the block scan and extends with the tool messages only
afterwards). -/
theorem c1_tool_result_image_two_messages (r : ToolResult) (id nm img : String)
    (tid t mt d : String) (err cc : Bool)
    (himg : r.base64_image = some img) (hne : img ≠ "") :
    (∃ txt, _make_nebius_tool_result r id nm
        = [⟨"tool", some (.str txt), some id, some nm, none⟩,
           mkImageUserMsg ("data:image/png;base64," ++ img)])
    ∧ convertMessageToOpenai
        ⟨"user", some (.items [⟨.toolResult tid (.items [.text t, .image mt d]) err, cc⟩]),
         none, none, none⟩
        = [mkImageUserMsg (dataUrl mt d), mkToolMsg tid t] := by
  constructor
  · refine ⟨if strTruthy r.error then _maybe_prepend_system_tool_result r (r.error.getD "")
      else if strTruthy r.output then _maybe_prepend_system_tool_result r (r.output.getD "")
      else "", ?_⟩
    simp [_make_nebius_tool_result, himg, hne, strTruthy]
  · simp [convertMessageToOpenai, userLoop, trInner]

/-- Witness for C1 (amended) at a concrete tool result with text and a
screenshot. -/
theorem c1_tool_result_image_two_messages_witness :
    (⟨some "out", none, some "IMG", none⟩ : ToolResult).base64_image = some "IMG"
    ∧ ("IMG" : String) ≠ ""
    ∧ ((∃ txt, _make_nebius_tool_result ⟨some "out", none, some "IMG", none⟩ "t1" "computer"
          = [⟨"tool", some (.str txt), some "t1", some "computer", none⟩,
             mkImageUserMsg ("data:image/png;base64," ++ "IMG")])
      ∧ convertMessageToOpenai
          ⟨"user", some (.items [⟨.toolResult "t1" (.items [.text "ok", .image "image/png" "IMG"]) false, false⟩]),
           none, none, none⟩
          = [mkImageUserMsg (dataUrl "image/png" "IMG"), mkToolMsg "t1" "ok"]) :=
  ⟨rfl, by decide,
   c1_tool_result_image_two_messages ⟨some "out", none, some "IMG", none⟩ "t1" "computer" "IMG"
     "t1" "ok" "image/png" "IMG" false false rfl (by decide)⟩

/-- C1 counterexample: re-translating a conversation whose tool result
holds an image puts the synthetic user image message at index 1 and the
tool-role message at index 2 — the image precedes the tool text result,
refuting the claimed "tool text result first, then image" order for the
re-translation path. -/
theorem c1_retranslation_order_counterexample :
    _convert_anthropic_messages_to_openai exConvC1
      = [⟨"assistant", none, none, none, some [⟨"t1", "computer", "args"⟩]⟩,
         mkImageUserMsg (dataUrl "image/png" "IMG"),
         mkToolMsg "t1" "ok"]
    ∧ (_convert_anthropic_messages_to_openai exConvC1)[1]?
        = some (mkImageUserMsg (dataUrl "image/png" "IMG"))
    ∧ (_convert_anthropic_messages_to_openai exConvC1)[2]?
        = some (mkToolMsg "t1" "ok") :=
  ⟨by decide, by decide, by decide⟩

/-- C6 (amended): a wire response with neither (truthy) assistant text nor
tool calls translates to the empty block list — no `MalformedResponse`
failure exists in the code, so the loop goes on to append an assistant
message with empty content. -/
theorem c6_empty_response_yields_empty_blocks (choice : ChoiceMessage)
    (h1 : strTruthy choice.content = false)
    (h2 : choice.toolCalls = none ∨ choice.toolCalls = some []) :
    _convert_openai_response_to_anthropic choice = [] := by
  rcases h2 with h2 | h2 <;>
    simp [_convert_openai_response_to_anthropic, h1, h2]

/-- Witness for C6 (amended) at the all-empty response. -/
theorem c6_empty_response_yields_empty_blocks_witness :
    strTruthy (⟨none, none⟩ : ChoiceMessage).content = false
    ∧ ((⟨none, none⟩ : ChoiceMessage).toolCalls = none
        ∨ (⟨none, none⟩ : ChoiceMessage).toolCalls = some [])
    ∧ _convert_openai_response_to_anthropic ⟨none, none⟩ = [] :=
  ⟨rfl, Or.inl rfl, c6_empty_response_yields_empty_blocks ⟨none, none⟩ rfl (Or.inl rfl)⟩

/-- C6 counterexample: the translation of the empty response does not fail
— it returns `[]`, and the Nebius loop then appends a degenerate assistant
message with empty content and terminates normally. -/
theorem c6_no_error_counterexample :
    _convert_openai_response_to_anthropic ⟨none, none⟩ = []
    ∧ sampling_loop .nebius none execOk [.nebiusResponse ⟨none, none⟩] []
        = .returned [mkAssistantMsg []] [.apiResponseCallback] :=
  ⟨by decide, by decide⟩

/-- C7 (amended): the translator performs no call/result pairing check —
a `tool_result` block whose `tool_use_id` matches no preceding tool call is
translated into a tool-role wire message carrying that very id and passed
through silently, whatever the rest of the conversation is; no
`DanglingToolResult` failure exists in the code. -/
theorem c7_dangling_tool_result_passes_through (msgs : List Msg) (tid s : String)
    (err cc : Bool) :
    _convert_anthropic_messages_to_openai
        (msgs ++ [⟨"user", some (.items [⟨.toolResult tid (.str s) err, cc⟩]), none, none, none⟩])
      = _convert_anthropic_messages_to_openai msgs ++ [mkToolMsg tid s] := by
  rw [convert_append]
  simp [_convert_anthropic_messages_to_openai, convertMessageToOpenai, userLoop]

/-- C7 counterexample: a conversation consisting only of a tool result
referencing the unknown id `"ghost"` translates without any error to the
pass-through tool message. -/
theorem c7_dangling_counterexample :
    _convert_anthropic_messages_to_openai
      [⟨"user", some (.items [⟨.toolResult "ghost" (.str "out") false, false⟩]), none, none, none⟩]
    = [mkToolMsg "ghost" "out"] := by decide

lemma userLoop_all_unknown : ∀ l : List Item,
    (∀ it ∈ l, unknownUserBlock it.block = true) → userLoop l = ([], [], [])
  | [], _ => rfl
  | it :: rest, h => by
    have hrec := userLoop_all_unknown rest (fun x hx => h x (List.mem_cons_of_mem _ hx))
    have hit := h it (List.mem_cons_self _ _)
    obtain ⟨blk, c⟩ := it
    cases blk with
    | text s => simp [unknownUserBlock] at hit
    | image mt d => simp [unknownUserBlock] at hit
    | toolResult tid tc te => simp [unknownUserBlock] at hit
    | toolUse a b cc => simp [userLoop, hrec]
    | imageUrl u => simp [userLoop, hrec]
    | otherBlock t => simp [userLoop, hrec]

/-- C10: a user message whose content list has no block of type `text`,
`image` or `tool_result` (e.g. only `image_url` blocks — exactly the shape
the Nebius loop appends for tool-result screenshots) produces no wire
message at all; consequently deleting such a synthetic image message from
any conversation does not change the translated request, so the image never
reaches any later request (in fact the translation drops it from every
request, including the one immediately after its tool call). -/
theorem c10_unknown_user_blocks_dropped (l : List Item)
    (a b : Option String) (tc : Option (List WireToolCall))
    (msgs1 msgs2 : List Msg) (url : String)
    (h : ∀ it ∈ l, unknownUserBlock it.block = true) :
    convertMessageToOpenai ⟨"user", some (.items l), a, b, tc⟩ = []
    ∧ _convert_anthropic_messages_to_openai (msgs1 ++ mkImageUserMsg url :: msgs2)
        = _convert_anthropic_messages_to_openai (msgs1 ++ msgs2) := by
  constructor
  · simp [convertMessageToOpenai, userLoop_all_unknown l h]
  · have himg : convertMessageToOpenai (mkImageUserMsg url) = [] := by
      simp [mkImageUserMsg, convertMessageToOpenai, userLoop]
    rw [show msgs1 ++ mkImageUserMsg url :: msgs2 = msgs1 ++ [mkImageUserMsg url] ++ msgs2 from by simp,
        convert_append, convert_append, convert_append]
    simp [_convert_anthropic_messages_to_openai, himg]

/-- Witness for C10 at a user message holding an `image_url` block and a
stray `tool_use` block. -/
theorem c10_unknown_user_blocks_dropped_witness :
    (∀ it ∈ [(⟨.imageUrl "u", false⟩ : Item), ⟨.toolUse "i" "n" "g", false⟩],
        unknownUserBlock it.block = true)
    ∧ (convertMessageToOpenai
        ⟨"user", some (.items [⟨.imageUrl "u", false⟩, ⟨.toolUse "i" "n" "g", false⟩]),
         none, none, none⟩ = []
      ∧ _convert_anthropic_messages_to_openai
          ([exUserHi] ++ mkImageUserMsg "data:image/png;base64,X" :: [exUserHi])
          = _convert_anthropic_messages_to_openai ([exUserHi] ++ [exUserHi])) :=
  ⟨by decide,
   c10_unknown_user_blocks_dropped
     [⟨.imageUrl "u", false⟩, ⟨.toolUse "i" "n" "g", false⟩] none none none
     [exUserHi] [exUserHi] "data:image/png;base64,X" (by decide)⟩
